import Mathlib

/-!
Shallow embedding of the `rust-memtester` crate (files `src/memtest.rs` and
`src/lib.rs`) and proofs about the claims of its specification.

Modelling conventions:

* A machine word is a `Nat`; the word size is a parameter `nb` counting the
  BYTES per word (the Rust `usize` is platform dependent), so a word holds
  values `< 2 ^ (8 * nb)`.  Wrapping arithmetic is explicit `% 2 ^ (8 * nb)`.
* The memory region is a store `Mem := Nat → Nat` indexed by word index;
  volatile reads are function application and volatile writes are pointwise
  update (`mset`).  Addresses are word indices measured from the region base,
  so `ptr = base_ptr.add(i)` is modelled by the index `base + i`.
* The `rand::random()` stream of a test is an oracle `rand : Nat → Nat`
  giving the value drawn at the n-th draw of the write loop.
* Real time cannot be embedded; the clock consulted by the timeout checker is
  an oracle (`timedOut : Bool` for the deadline comparison and `est : Nat`
  for the computed iteration estimate), and the pattern tests are modelled on
  executions in which no timeout fires (`TimeoutChecker.check` returning `Ok`
  changes no observable test state).  The checker itself is modelled
  separately with its oracle.
* Concurrent memory corruption (as exercised by `examples/test_failures.rs`)
  is modelled for the run-based tests by a `fault : Nat → Mem → Mem` oracle
  applied between the write phase and the comparison phase of each outer run;
  healthy memory is the instance `fun _ m => m`.
* Tracing (`info!`, `trace!`, progress fractions) is pure logging and is
  omitted.
-/

/-- Outcome payload of a failed comparison, from `enum MemtestFailure`. -/
inductive MemtestFailure where
  | UnexpectedValue (address expected actual : Nat)
  | MismatchedValues (address1 value1 address2 value2 : Nat)
deriving DecidableEq

/-- From `enum MemtestOutcome`. -/
inductive MemtestOutcome where
  | Pass
  | Fail (f : MemtestFailure)
deriving DecidableEq

/-- From `enum MemtestError`; the `anyhow::Error` cause is its message. -/
inductive MemtestError where
  | Timeout
  | Other (cause : String)
deriving DecidableEq

/-- From `enum MemtestKind` (13 variants). -/
inductive MemtestKind where
  | OwnAddressBasic
  | OwnAddressRepeat
  | RandomVal
  | Xor
  | Sub
  | Mul
  | Div
  | Or
  | And
  | SeqInc
  | SolidBits
  | Checkerboard
  | BlockSeq
deriving DecidableEq, Fintype

/-- A memory region as a store from word index to word value. -/
def Mem : Type := Nat → Nat

/-- Volatile write of value `v` at word index `i` (`write_volatile`). -/
def mset (i v : Nat) (m : Mem) : Mem :=
  fun j => if j = i then v else m j

/-- The word with every one of its `nb` bytes set to `b`
(`write_bytes(&mut val, b, 1)` on a word of `nb` bytes). -/
def repByte (b : Nat) : Nat → Nat
  | 0 => 0
  | k + 1 => repByte b k * 256 + b

/-- ALL-ONES for a word of `nb` bytes (`!0`, also `write_bytes(.., 0xff, 1)`). -/
def allOnes (nb : Nat) : Nat := 2 ^ (8 * nb) - 1

/-- Bitwise NOT within a word of `nb` bytes (Rust `!v` on `usize`). -/
def bnot (nb : Nat) (v : Nat) : Nat := v ^^^ allOnes nb

/-- The message of `ensure_two_regions_mem_len`'s error. -/
def twoRegionsErrMsg : String := "Insufficient memory length for two-regions memtest"

/-- Loop body of `compare_regions` over the remaining index list: read the
pair at index `i`, return the mismatch at the first differing pair. -/
def compareRegionsGo (m : Mem) (b1 b2 : Nat) : List Nat → MemtestOutcome
  | [] => .Pass
  | i :: rest =>
    let val1 := m (b1 + i)
    let val2 := m (b2 + i)
    if val1 ≠ val2 then
      .Fail (.MismatchedValues (b1 + i) val1 (b2 + i) val2)
    else
      compareRegionsGo m b1 b2 rest

/-- From `unsafe fn compare_regions(base_ptr_1, base_ptr_2, len, ..)`:
compare `len` pairs of words at bases `b1` and `b2`, aborting with
`MismatchedValues` at the first differing pair. -/
def compareRegions (m : Mem) (b1 b2 len : Nat) : MemtestOutcome :=
  compareRegionsGo m b1 b2 (List.range len)

/-- From `fn mem_reset`: set every word of the region (all `len` words) to
ALL-ONES. -/
def memReset (nb len : Nat) (m : Mem) : Mem :=
  (List.range len).foldl (fun mm i => mset i (allOnes nb) mm) m

/-- Write loop shared by `test_random_val`, `test_seq_inc` and the inner loop
of `test_block_seq`: for each `i < half` write the value `valAt i` to both
`w[i]` and `w[half + i]`. -/
def pairWriteVal (valAt : Nat → Nat) (half : Nat) (m : Mem) : Mem :=
  (List.range half).foldl
    (fun mm i => mset (half + i) (valAt i) (mset i (valAt i) mm)) m

/-- Write loop of `test_two_regions`: for each `i < half` draw `val = rand i`
and perform the read-modify-write `w[k] ← f (w[k]) val` on `k = i` and then
on `k = half + i` (the per-test closure writes `f(read(ptr), val)`). -/
def twoRegionsWrite (f : Nat → Nat → Nat) (rand : Nat → Nat) (half : Nat) (m : Mem) : Mem :=
  (List.range half).foldl
    (fun mm i =>
      let val := rand i
      let m1 := mset i (f (mm i) val) mm
      mset (half + i) (f (m1 (half + i)) val) m1)
    m

/-- Inner write loop of `test_solid_bits` / `test_checkerboard`: the value is
toggled (`val = !val`) before each pair write, starting from `start`. -/
def toggleRunWrite (nb half : Nat) (start : Nat) (m : Mem) : Nat × Mem :=
  (List.range half).foldl
    (fun p j =>
      let val := bnot nb p.1
      let m1 := mset j val p.2
      (val, mset (half + j) val m1))
    (start, m)

/-- Result of one pattern test: the reported result together with the final
state of the region. -/
abbrev TestRet : Type := Except MemtestError MemtestOutcome × Mem

/-- From `fn test_two_regions` (base of `test_xor`, `test_sub`, `test_mul`,
`test_div`, `test_or`, `test_and`): length check, reset to ALL-ONES, paired
read-modify-write loop, then comparison of the halves. -/
def test_two_regions (nb : Nat) (f : Nat → Nat → Nat) (rand : Nat → Nat)
    (len : Nat) (m : Mem) : TestRet :=
  if len < 2 then (.error (.Other twoRegionsErrMsg), m)
  else
    let half := len / 2
    let m0 := memReset nb len m
    let m1 := twoRegionsWrite f rand half m0
    (.ok (compareRegions m1 0 half half), m1)

/-- Update of `test_xor`: `write_volatile(ptr, val ^ read_volatile(ptr))`. -/
def xorVal (nb : Nat) (c v : Nat) : Nat := v ^^^ c

/-- Update of `test_sub`: `read.wrapping_sub(val)` on an `nb`-byte word. -/
def subVal (nb : Nat) (c v : Nat) : Nat :=
  (c + (2 ^ (8 * nb) - v % 2 ^ (8 * nb))) % 2 ^ (8 * nb)

/-- Update of `test_mul`: `read.wrapping_mul(val)` on an `nb`-byte word. -/
def mulVal (nb : Nat) (c v : Nat) : Nat := c * v % 2 ^ (8 * nb)

/-- Update of `test_div`: `read / (if val == 0 { 1 } else { val })`. -/
def divVal (nb : Nat) (c v : Nat) : Nat := c / (if v = 0 then 1 else v)

/-- Update of `test_or`: `read | val`. -/
def orVal (nb : Nat) (c v : Nat) : Nat := c ||| v

/-- Update of `test_and`: `read & val`. -/
def andVal (nb : Nat) (c v : Nat) : Nat := c &&& v

/-- From `fn test_xor`. -/
def test_xor (nb : Nat) (rand : Nat → Nat) (len : Nat) (m : Mem) : TestRet :=
  test_two_regions nb (xorVal nb) rand len m

/-- From `fn test_sub`. -/
def test_sub (nb : Nat) (rand : Nat → Nat) (len : Nat) (m : Mem) : TestRet :=
  test_two_regions nb (subVal nb) rand len m

/-- From `fn test_mul`. -/
def test_mul (nb : Nat) (rand : Nat → Nat) (len : Nat) (m : Mem) : TestRet :=
  test_two_regions nb (mulVal nb) rand len m

/-- From `fn test_div`. -/
def test_div (nb : Nat) (rand : Nat → Nat) (len : Nat) (m : Mem) : TestRet :=
  test_two_regions nb (divVal nb) rand len m

/-- From `fn test_or`. -/
def test_or (nb : Nat) (rand : Nat → Nat) (len : Nat) (m : Mem) : TestRet :=
  test_two_regions nb (orVal nb) rand len m

/-- From `fn test_and`. -/
def test_and (nb : Nat) (rand : Nat → Nat) (len : Nat) (m : Mem) : TestRet :=
  test_two_regions nb (andVal nb) rand len m

/-- From `fn test_random_val`: NO length check and NO reset; write a fresh
random word to both halves for each pair, then compare the halves. -/
def test_random_val (nb : Nat) (rand : Nat → Nat) (len : Nat) (m : Mem) : TestRet :=
  let half := len / 2
  let m1 := pairWriteVal rand half m
  (.ok (compareRegions m1 0 half half), m1)

/-- From `fn test_seq_inc`: length check, one random draw `val`, write
`val.wrapping_add(i)` to both halves for each pair, then compare. -/
def test_seq_inc (nb : Nat) (rand : Nat → Nat) (len : Nat) (m : Mem) : TestRet :=
  if len < 2 then (.error (.Other twoRegionsErrMsg), m)
  else
    let half := len / 2
    let val := rand 0
    let m1 := pairWriteVal (fun i => (val + i) % 2 ^ (8 * nb)) half m
    (.ok (compareRegions m1 0 half half), m1)

/-- From `fn test_solid_bits`: 64 outer runs; run `i` starts from `0` for
even `i` and ALL-ONES for odd `i`, toggling before each pair write.  After
each run's writes the (possibly faulted) halves are compared, but the Rust
source applies `?` to `compare_regions(..)`, which propagates only the
`Err` case and DISCARDS an `Ok(Fail(..))` outcome, so the loop always
continues and the function ends with `Ok(Pass)`. -/
def test_solid_bits (nb : Nat) (fault : Nat → Mem → Mem) (len : Nat) (m : Mem) : TestRet :=
  if len < 2 then (.error (.Other twoRegionsErrMsg), m)
  else
    let half := len / 2
    let mf := (List.range 64).foldl
      (fun mm i =>
        let start := if i % 2 = 0 then 0 else allOnes nb
        let m1 := (toggleRunWrite nb half start mm).2
        let m2 := fault i m1
        let _ := compareRegions m2 0 half half
        m2)
      m
    (.ok .Pass, mf)

/-- The word with every byte `0x55` (`write_bytes(&mut checker_board, 0x55, 1)`). -/
def checkerBoardVal (nb : Nat) : Nat := repByte 0x55 nb

/-- From `fn test_checkerboard`: like `test_solid_bits` but run `i` starts
from the checkerboard word for even `i` and its complement for odd `i`.
The per-run comparison outcome is discarded by `?` exactly as in
`test_solid_bits`. -/
def test_checkerboard (nb : Nat) (fault : Nat → Mem → Mem) (len : Nat) (m : Mem) : TestRet :=
  if len < 2 then (.error (.Other twoRegionsErrMsg), m)
  else
    let half := len / 2
    let mf := (List.range 64).foldl
      (fun mm i =>
        let start := if i % 2 = 0 then checkerBoardVal nb else bnot nb (checkerBoardVal nb)
        let m1 := (toggleRunWrite nb half start mm).2
        let m2 := fault i m1
        let _ := compareRegions m2 0 half half
        m2)
      m
    (.ok .Pass, mf)

/-- From `fn test_block_seq`: 256 outer runs; run `i` writes the word whose
every byte is `i` to both halves of every pair.  The per-run comparison
outcome is discarded by `?` exactly as in `test_solid_bits`. -/
def test_block_seq (nb : Nat) (fault : Nat → Mem → Mem) (len : Nat) (m : Mem) : TestRet :=
  if len < 2 then (.error (.Other twoRegionsErrMsg), m)
  else
    let half := len / 2
    let mf := (List.range 256).foldl
      (fun mm i =>
        let val := repByte i nb
        let m1 := pairWriteVal (fun _ => val) half mm
        let m2 := fault i m1
        let _ := compareRegions m2 0 half half
        m2)
      m
    (.ok .Pass, mf)

/-! ### Characterization of the write loops -/

theorem mset_self (i v : Nat) (m : Mem) : mset i v m i = v := by
  simp [mset]

theorem mset_ne (i v j : Nat) (m : Mem) (h : j ≠ i) : mset i v m j = m j := by
  simp [mset, h]

/-- Partial-fold characterization of `pairWriteVal`. -/
theorem pairWriteVal_go (valAt : Nat → Nat) (half : Nat) (m : Mem) (k : Nat)
    (hk : k ≤ half) : ∀ j,
    ((List.range k).foldl
        (fun mm i => mset (half + i) (valAt i) (mset i (valAt i) mm)) m) j =
      if j < k then valAt j
      else if half ≤ j ∧ j < half + k then valAt (j - half)
      else m j := by
  induction k with
  | zero =>
    intro j
    have h0 : ¬ (j < 0) := by omega
    have h0' : ¬ (half ≤ j ∧ j < half) := by omega
    simp [h0, h0']
  | succ k ih =>
    intro j
    have hk' : k ≤ half := Nat.le_of_succ_le hk
    rw [List.range_succ, List.foldl_append, List.foldl_cons, List.foldl_nil]
    by_cases h1 : j = half + k
    · rw [h1, mset_self]
      have h2 : ¬ (half + k < k + 1) := by omega
      have h3 : half ≤ half + k ∧ half + k < half + (k + 1) := by omega
      simp only [h2, if_false, h3, and_self, if_true]
      congr 1
      omega
    · rw [mset_ne _ _ _ _ h1]
      by_cases h2 : j = k
      · rw [h2, mset_self]
        have h3 : k < k + 1 := by omega
        simp [h3]
      · rw [mset_ne _ _ _ _ h2, ih hk' j]
        by_cases h3 : j < k
        · have h4 : j < k + 1 := by omega
          simp [h3, h4]
        · have h4 : ¬ (j < k + 1) := by omega
          by_cases h5 : half ≤ j ∧ j < half + k
          · have h6 : half ≤ j ∧ j < half + (k + 1) := ⟨h5.1, by omega⟩
            simp [h3, h4, h5, h6]
          · have h6 : ¬ (half ≤ j ∧ j < half + (k + 1)) := by
              rintro ⟨a, b⟩; exact h5 ⟨a, by omega⟩
            simp [h3, h4, h5, h6]

/-- Pointwise value of `pairWriteVal valAt half m`: index `j < half` holds
`valAt j`, index `half + i` (`i < half`) holds `valAt i`, all other indices
are untouched. -/
theorem pairWriteVal_get (valAt : Nat → Nat) (half : Nat) (m : Mem) (j : Nat) :
    pairWriteVal valAt half m j =
      if j < half then valAt j
      else if j < half + half then valAt (j - half)
      else m j := by
  have h := pairWriteVal_go valAt half m half (Nat.le_refl half)
  rw [pairWriteVal, h j]
  by_cases h1 : j < half
  · simp [h1]
  · simp only [h1, if_false]
    by_cases h2 : j < half + half
    · have : half ≤ j ∧ j < half + half := ⟨by omega, h2⟩
      simp [this, h2]
    · have : ¬ (half ≤ j ∧ j < half + half) := by omega
      simp [this, h2]

/-- Partial-fold characterization of `twoRegionsWrite`. -/
theorem twoRegionsWrite_go (f : Nat → Nat → Nat) (rand : Nat → Nat) (half : Nat)
    (m : Mem) (k : Nat) (hk : k ≤ half) : ∀ j,
    ((List.range k).foldl
        (fun mm i =>
          let val := rand i
          let m1 := mset i (f (mm i) val) mm
          mset (half + i) (f (m1 (half + i)) val) m1) m) j =
      if j < k then f (m j) (rand j)
      else if half ≤ j ∧ j < half + k then f (m j) (rand (j - half))
      else m j := by
  induction k with
  | zero =>
    intro j
    have h0 : ¬ (j < 0) := by omega
    have h0' : ¬ (half ≤ j ∧ j < half) := by omega
    simp [h0, h0']
  | succ k ih =>
    intro j
    have hk' : k ≤ half := Nat.le_of_succ_le hk
    have hhalf : 1 ≤ half := by omega
    have ih' := ih hk'
    rw [List.range_succ, List.foldl_append, List.foldl_cons, List.foldl_nil]
    set F : Mem := (List.range k).foldl
        (fun mm i =>
          let val := rand i
          let m1 := mset i (f (mm i) val) mm
          mset (half + i) (f (m1 (half + i)) val) m1) m with hF
    show mset (half + k) (f (mset k (f (F k) (rand k)) F (half + k)) (rand k))
        (mset k (f (F k) (rand k)) F) j = _
    have hFk : F k = m k := by
      rw [ih' k]
      have h1 : ¬ (k < k) := by omega
      have h2 : ¬ (half ≤ k ∧ k < half + k) := by omega
      rw [if_neg h1, if_neg h2]
    have hFhk : F (half + k) = m (half + k) := by
      rw [ih' (half + k)]
      have h1 : ¬ (half + k < k) := by omega
      have h2 : ¬ (half ≤ half + k ∧ half + k < half + k) := by omega
      rw [if_neg h1, if_neg h2]
    have hne : half + k ≠ k := by omega
    rw [mset_ne _ _ _ _ hne, hFhk, hFk]
    by_cases h1 : j = half + k
    · rw [h1, mset_self]
      have h2 : ¬ (half + k < k + 1) := by omega
      have h3 : half ≤ half + k ∧ half + k < half + (k + 1) := by omega
      rw [if_neg h2, if_pos h3]
      have he : half + k - half = k := by omega
      rw [he]
    · rw [mset_ne _ _ _ _ h1]
      by_cases h2 : j = k
      · rw [h2, mset_self]
        have h3 : k < k + 1 := by omega
        rw [if_pos h3]
      · rw [mset_ne _ _ _ _ h2, ih' j]
        by_cases h3 : j < k
        · have h4 : j < k + 1 := by omega
          rw [if_pos h3, if_pos h4]
        · have h4 : ¬ (j < k + 1) := by omega
          rw [if_neg h3, if_neg h4]
          by_cases h5 : half ≤ j ∧ j < half + k
          · have h6 : half ≤ j ∧ j < half + (k + 1) := ⟨h5.1, by omega⟩
            rw [if_pos h5, if_pos h6]
          · have h6 : ¬ (half ≤ j ∧ j < half + (k + 1)) := by
              rintro ⟨a, b⟩; exact h5 ⟨a, by omega⟩
            rw [if_neg h5, if_neg h6]

/-- Pointwise value of `twoRegionsWrite f rand half m`: the pair at `i < half`
is updated to `f (old value) (rand i)` in both halves; indices at or beyond
`half + half` are untouched. -/
theorem twoRegionsWrite_get (f : Nat → Nat → Nat) (rand : Nat → Nat) (half : Nat)
    (m : Mem) (j : Nat) :
    twoRegionsWrite f rand half m j =
      if j < half then f (m j) (rand j)
      else if j < half + half then f (m j) (rand (j - half))
      else m j := by
  have h := twoRegionsWrite_go f rand half m half (Nat.le_refl half)
  rw [twoRegionsWrite, h j]
  by_cases h1 : j < half
  · simp [h1]
  · simp only [h1, if_false]
    by_cases h2 : j < half + half
    · have : half ≤ j ∧ j < half + half := ⟨by omega, h2⟩
      simp [this, h2]
    · have : ¬ (half ≤ j ∧ j < half + half) := by omega
      simp [this, h2]


/-- Partial-fold characterization of `toggleRunWrite`: after `k` steps the
carried value is the `k`-fold toggle of `start`, the word at `j < k` (and its
partner at `half + j`) holds the `(j+1)`-fold toggle, and other indices are
untouched. -/
theorem toggleRunWrite_go (nb half start : Nat) (m : Mem) :
    ∀ k, k ≤ half →
    ((List.range k).foldl
        (fun p j =>
          let val := bnot nb p.1
          let m1 := mset j val p.2
          (val, mset (half + j) val m1)) (start, m)).1 = (bnot nb)^[k] start ∧
    ∀ j,
    ((List.range k).foldl
        (fun p j =>
          let val := bnot nb p.1
          let m1 := mset j val p.2
          (val, mset (half + j) val m1)) (start, m)).2 j =
      if j < k then (bnot nb)^[j + 1] start
      else if half ≤ j ∧ j < half + k then (bnot nb)^[j - half + 1] start
      else m j := by
  intro k
  induction k with
  | zero =>
    intro _
    refine ⟨rfl, ?_⟩
    intro j
    have h0 : ¬ (j < 0) := by omega
    have h0' : ¬ (half ≤ j ∧ j < half) := by omega
    simp [h0, h0']
  | succ k ih =>
    intro hk
    have hk' : k ≤ half := Nat.le_of_succ_le hk
    obtain ⟨ih1, ih2⟩ := ih hk'
    rw [List.range_succ, List.foldl_append, List.foldl_cons, List.foldl_nil]
    set P := (List.range k).foldl
        (fun p j =>
          let val := bnot nb p.1
          let m1 := mset j val p.2
          (val, mset (half + j) val m1)) (start, m) with hP
    constructor
    · show bnot nb P.1 = (bnot nb)^[k + 1] start
      rw [ih1, Function.iterate_succ_apply']
    · intro j
      show mset (half + k) (bnot nb P.1) (mset k (bnot nb P.1) P.2) j = _
      rw [ih1, ← Function.iterate_succ_apply' (bnot nb) k start]
      by_cases h1 : j = half + k
      · rw [h1, mset_self]
        have h2 : ¬ (half + k < k + 1) := by omega
        have h3 : half ≤ half + k ∧ half + k < half + (k + 1) := by omega
        rw [if_neg h2, if_pos h3]
        have he : half + k - half + 1 = k + 1 := by omega
        rw [he]
      · rw [mset_ne _ _ _ _ h1]
        by_cases h2 : j = k
        · rw [h2, mset_self]
          have h3 : k < k + 1 := by omega
          rw [if_pos h3]
        · rw [mset_ne _ _ _ _ h2, ih2 j]
          by_cases h3 : j < k
          · have h4 : j < k + 1 := by omega
            rw [if_pos h3, if_pos h4]
          · have h4 : ¬ (j < k + 1) := by omega
            rw [if_neg h3, if_neg h4]
            by_cases h5 : half ≤ j ∧ j < half + k
            · have h6 : half ≤ j ∧ j < half + (k + 1) := ⟨h5.1, by omega⟩
              rw [if_pos h5, if_pos h6]
            · have h6 : ¬ (half ≤ j ∧ j < half + (k + 1)) := by
                rintro ⟨a, b⟩; exact h5 ⟨a, by omega⟩
              rw [if_neg h5, if_neg h6]

/-- Pointwise value of `toggleRunWrite`: word `j < half` and its partner
`half + j` hold the `(j+1)`-fold toggle of `start`; indices `≥ half + half`
are untouched. -/
theorem toggleRunWrite_get (nb half start : Nat) (m : Mem) (j : Nat) :
    (toggleRunWrite nb half start m).2 j =
      if j < half then (bnot nb)^[j + 1] start
      else if j < half + half then (bnot nb)^[j - half + 1] start
      else m j := by
  have h := (toggleRunWrite_go nb half start m half (Nat.le_refl half)).2 j
  rw [toggleRunWrite, h]
  by_cases h1 : j < half
  · simp [h1]
  · simp only [h1, if_false]
    by_cases h2 : j < half + half
    · have : half ≤ j ∧ j < half + half := ⟨by omega, h2⟩
      simp [this, h2]
    · have : ¬ (half ≤ j ∧ j < half + half) := by omega
      simp [this, h2]

/-- Pointwise value of `memReset`: every index `< len` holds ALL-ONES, the
rest are untouched. -/
theorem memReset_get (nb : Nat) (m : Mem) :
    ∀ len j, memReset nb len m j = if j < len then allOnes nb else m j := by
  intro len
  induction len with
  | zero =>
    intro j
    have h0 : ¬ (j < 0) := by omega
    simp [memReset, h0]
  | succ len ih =>
    intro j
    rw [memReset, List.range_succ, List.foldl_append, List.foldl_cons, List.foldl_nil]
    by_cases h1 : j = len
    · rw [h1, mset_self]
      have h2 : len < len + 1 := by omega
      rw [if_pos h2]
    · rw [mset_ne _ _ _ _ h1]
      have hih := ih j
      rw [memReset] at hih
      rw [hih]
      by_cases h3 : j < len
      · have h4 : j < len + 1 := by omega
        rw [if_pos h3, if_pos h4]
      · have h4 : ¬ (j < len + 1) := by omega
        rw [if_neg h3, if_neg h4]

/-! ### Characterization of `compare_regions` -/

/-- If every pair listed agrees, the comparison passes. -/
theorem compareRegionsGo_pass (m : Mem) (b1 b2 : Nat) :
    ∀ l : List Nat, (∀ i ∈ l, m (b1 + i) = m (b2 + i)) →
    compareRegionsGo m b1 b2 l = .Pass := by
  intro l
  induction l with
  | nil => intro _; rfl
  | cons i rest ih =>
    intro h
    have hi : m (b1 + i) = m (b2 + i) := h i (List.mem_cons_self i rest)
    rw [compareRegionsGo]
    simp only [hi, ne_eq, not_true_eq_false, if_neg, ite_false]
    exact ih (fun j hj => h j (List.mem_cons_of_mem i hj))

/-- If every one of the `len` pairs agrees, `compare_regions` passes. -/
theorem compareRegions_pass (m : Mem) (b1 b2 len : Nat)
    (h : ∀ i < len, m (b1 + i) = m (b2 + i)) :
    compareRegions m b1 b2 len = .Pass := by
  apply compareRegionsGo_pass
  intro i hi
  exact h i (List.mem_range.mp hi)

/-- First-mismatch characterization of the comparison loop over the index
interval `[s, s + n)`. -/
theorem compareRegionsGo_fail (m : Mem) (b1 b2 : Nat) :
    ∀ n s fl, compareRegionsGo m b1 b2 (List.range' s n) = .Fail fl →
    ∃ i, s ≤ i ∧ i < s + n ∧
      fl = .MismatchedValues (b1 + i) (m (b1 + i)) (b2 + i) (m (b2 + i)) ∧
      m (b1 + i) ≠ m (b2 + i) ∧
      ∀ j, s ≤ j → j < i → m (b1 + j) = m (b2 + j) := by
  intro n
  induction n with
  | zero =>
    intro s fl h
    rw [List.range'] at h
    exact absurd h (by rw [compareRegionsGo]; simp)
  | succ n ih =>
    intro s fl h
    rw [List.range'_succ, compareRegionsGo] at h
    by_cases hs : m (b1 + s) = m (b2 + s)
    · simp only [hs, ne_eq, not_true_eq_false, ite_false] at h
      obtain ⟨i, hi1, hi2, hi3, hi4, hi5⟩ := ih (s + 1) fl h
      refine ⟨i, by omega, by omega, hi3, hi4, ?_⟩
      intro j hj1 hj2
      by_cases hj3 : j = s
      · rw [hj3]; exact hs
      · exact hi5 j (by omega) hj2
    · simp only [hs, ne_eq, not_false_eq_true, ite_true] at h
      refine ⟨s, Nat.le_refl s, by omega, ?_, hs, ?_⟩
      · injection h with h2
        exact h2.symm
      · intro j hj1 hj2; omega

/-- First-mismatch characterization of `compare_regions`: a reported
`MismatchedValues` names the lowest differing pair, with `address1` in the
first region, `address2` the corresponding index in the second region, the
two differing values read there, and all pairs below it agreeing. -/
theorem compareRegions_fail (m : Mem) (b1 b2 len : Nat) (fl : MemtestFailure)
    (h : compareRegions m b1 b2 len = .Fail fl) :
    ∃ i < len,
      fl = .MismatchedValues (b1 + i) (m (b1 + i)) (b2 + i) (m (b2 + i)) ∧
      m (b1 + i) ≠ m (b2 + i) ∧
      ∀ j < i, m (b1 + j) = m (b2 + j) := by
  rw [compareRegions, List.range_eq_range'] at h
  obtain ⟨i, hi1, hi2, hi3, hi4, hi5⟩ := compareRegionsGo_fail m b1 b2 len 0 fl h
  exact ⟨i, by omega, hi3, hi4, fun j hj => hi5 j (by omega) hj⟩

/-! ### Suite driver, result reduction and timeout checker (`src/lib.rs`) -/

/-- The result of one test as reported by the driver,
`Result<MemtestOutcome, MemtestError>`. -/
abbrev TestResult : Type := Except MemtestError MemtestOutcome

instance : DecidableEq (Except MemtestError MemtestOutcome) := fun a b =>
  match a, b with
  | .error x, .error y =>
    match decEq x y with
    | isTrue h => isTrue (by rw [h])
    | isFalse h => isFalse (fun hh => h (by injection hh))
  | .ok x, .ok y =>
    match decEq x y with
    | isTrue h => isTrue (by rw [h])
    | isFalse h => isFalse (fun hh => h (by injection hh))
  | .error _, .ok _ => isFalse (fun hh => Except.noConfusion hh)
  | .ok _, .error _ => isFalse (fun hh => Except.noConfusion hh)

/-- From `struct MemtestReport`. -/
structure MemtestReport where
  test_type : MemtestKind
  outcome : TestResult
deriving DecidableEq

/-- The list literal built in `Memtester::all_tests_random_order` before it is
shuffled.  In the source the first element, `MemtestKind::OwnAddressBasic,`,
is commented out, so the literal holds 12 of the 13 variants. -/
def allTestsBaseList : List MemtestKind :=
  [.OwnAddressRepeat, .RandomVal, .Xor, .Sub, .Mul, .Div, .Or, .And,
   .SeqInc, .SolidBits, .Checkerboard, .BlockSeq]

/-- All 13 `MemtestKind` variants in declaration order; used to state the
claim that `all_tests_random_order` covers the full set. -/
def fullKindList : List MemtestKind :=
  [.OwnAddressBasic, .OwnAddressRepeat, .RandomVal, .Xor, .Sub, .Mul, .Div,
   .Or, .And, .SeqInc, .SolidBits, .Checkerboard, .BlockSeq]

/-- Modelling `test_types.shuffle(&mut thread_rng())`: a shuffle yields some
permutation of its input, so the `test_types` list of a suite built by
`all_tests_random_order` is any list `l` with `l.Perm allTestsBaseList`. -/
def isRandomOrderTestList (l : List MemtestKind) : Prop :=
  l.Perm allTestsBaseList

/-- Decision `matches!(result, Err(MemtestError::Other(_)))`. -/
def isOtherRes : TestResult → Bool
  | .error (.Other _) => true
  | _ => false

/-- Decision `matches!(result, Err(MemtestError::Timeout))`. -/
def isTimeoutRes : TestResult → Bool
  | .error .Timeout => true
  | _ => false

/-- Decision `matches!(result, Ok(MemtestOutcome::Fail(_)))`. -/
def isFailRes : TestResult → Bool
  | .ok (.Fail _) => true
  | _ => false

/-- The `fold` combinator of `Memtester::run_tests`' multithreaded branch,
with the Rust or-patterns split into one arm per alternative in the same
order (the accumulator side of each or-pattern comes first, so its payload
wins). -/
def reduceStep (acc result : TestResult) : TestResult :=
  match acc, result with
  | .error (.Other e), _ => .error (.Other e)
  | _, .error (.Other e) => .error (.Other e)
  | .error .Timeout, _ => .error .Timeout
  | _, .error .Timeout => .error .Timeout
  | .ok (.Fail f), _ => .ok (.Fail f)
  | _, .ok (.Fail f) => .ok (.Fail f)
  | _, _ => .ok .Pass

/-- The reduction of the per-worker results in `Memtester::run_tests`:
`fold(Ok(MemtestOutcome::Pass), ..)` over the joined worker results. -/
def reduceResults (results : List TestResult) : TestResult :=
  results.foldl reduceStep (.ok .Pass)

/-- Modelled from the spec's words (§4.4 Reduction): priority
`Err(Other) > Err(Timeout) > Ok(Fail) > Ok(Pass)`, the first encountered
`Fail` or `Other` winning. -/
def specReduce (results : List TestResult) : TestResult :=
  match results.find? isOtherRes with
  | some r => r
  | none =>
    if results.any isTimeoutRes then .error .Timeout
    else
      match results.find? isFailRes with
      | some r => r
      | none => .ok .Pass

/-- The per-test dispatch loop of `Memtester::run_tests`, with each test's
result supplied by the oracle pairing (test results depend on memory faults
and real time, which the driver treats as opaque): push a report for every
result, and `break` right after pushing when the result is `Ok(Fail(_))` and
`allow_early_termination` is set. -/
def runTests (allow_early_termination : Bool) :
    List (MemtestKind × TestResult) → List MemtestReport
  | [] => []
  | (k, r) :: rest =>
    if isFailRes r && allow_early_termination then
      [⟨k, r⟩]
    else
      ⟨k, r⟩ :: runTests allow_early_termination rest

/-- From `struct TimeoutChecker`, keeping the fields that are not real-time
or logging state (`deadline`, `test_start_time`, `num_checks_completed` and
`last_progress_fraction` are dropped; the clock is an oracle of `check`). -/
structure TimeoutChecker where
  expected_iter : Nat
  completed_iter : Nat
  checkpoint : Nat
deriving DecidableEq

/-- From `TimeoutChecker::new`: `completed_iter = 0`, `checkpoint = 1`. -/
def TimeoutChecker.new : TimeoutChecker :=
  { expected_iter := 0, completed_iter := 0, checkpoint := 1 }

/-- From `TimeoutChecker::init`: record `expected_iter` and set the first
checkpoint to 8 when `expected_iter > 8`, else 1.  Note `completed_iter` is
not reset here (it is 0 from `new`). -/
def TimeoutChecker.init (expected_iter : Nat) (s : TimeoutChecker) : TimeoutChecker :=
  { s with
    expected_iter := expected_iter
    checkpoint := if expected_iter > 8 then 8 else 1 }

/-- From `TimeoutChecker::check` / `check_time`.  The clock is an oracle:
`timedOut` is the comparison `current_time >= self.deadline` and `est` is the
computed `duration_until_next_checkpoint.div_duration_f64(avg_iter_duration)
as u64`.  Fast path: `completed_iter < checkpoint` increments
`completed_iter` only.  Slow path: on timeout return `Err(Timeout)` leaving
the state untouched, otherwise add `max(est, 1)` to the checkpoint and
increment `completed_iter`. -/
def TimeoutChecker.check (timedOut : Bool) (est : Nat) (s : TimeoutChecker) :
    TimeoutChecker × Option MemtestError :=
  if s.completed_iter < s.checkpoint then
    ({ s with completed_iter := s.completed_iter + 1 }, none)
  else if timedOut then
    (s, some .Timeout)
  else
    ({ s with
        checkpoint := s.checkpoint + Nat.max est 1
        completed_iter := s.completed_iter + 1 }, none)

/-- A sequence of `check` calls driven by a list of clock-oracle answers
(after a `Timeout` result the state is unchanged, so chaining is sound). -/
def TimeoutChecker.checkSeq (s : TimeoutChecker) : List (Bool × Nat) → TimeoutChecker
  | [] => s
  | o :: os => TimeoutChecker.checkSeq (TimeoutChecker.check o.1 o.2 s).1 os

/-! ### Lemmas about the result reduction -/

theorem reduceStep_other_left (e : String) (x : TestResult) :
    reduceStep (.error (.Other e)) x = .error (.Other e) := by
  rcases x with (_ | ex) | (_ | fx) <;> rfl

theorem reduceStep_pass_left (x : TestResult) :
    reduceStep (.ok .Pass) x = x := by
  rcases x with (_ | ex) | (_ | fx) <;> rfl

theorem reduceStep_pass_right (a : TestResult) :
    reduceStep a (.ok .Pass) = a := by
  rcases a with (_ | ea) | (_ | fa) <;> rfl

theorem reduceStep_assoc (a b c : TestResult) :
    reduceStep (reduceStep a b) c = reduceStep a (reduceStep b c) := by
  rcases a with (_ | ea) | (_ | fa) <;>
    rcases b with (_ | eb) | (_ | fb) <;>
    rcases c with (_ | ec) | (_ | fc) <;> rfl

theorem isOtherRes_shape {x : TestResult} (h : isOtherRes x = true) :
    ∃ e, x = .error (.Other e) := by
  rcases x with (_ | ex) | (_ | fx)
  · exact absurd h (by simp [isOtherRes])
  · exact ⟨ex, rfl⟩
  · exact absurd h (by simp [isOtherRes])
  · exact absurd h (by simp [isOtherRes])

theorem isFailRes_shape {x : TestResult} (h : isFailRes x = true) :
    ∃ f, x = .ok (.Fail f) := by
  rcases x with (_ | ex) | (_ | fx)
  · exact absurd h (by simp [isFailRes])
  · exact absurd h (by simp [isFailRes])
  · exact absurd h (by simp [isFailRes])
  · exact ⟨fx, rfl⟩

theorem specReduce_cons (r : TestResult) (rs : List TestResult) :
    specReduce (r :: rs) = reduceStep r (specReduce rs) := by
  rcases r with (_ | e) | (_ | f)
  · -- r = Err(Timeout)
    rw [specReduce, specReduce,
      List.find?_cons_of_neg _ (by simp [isOtherRes]),
      List.any_cons]
    have ht : isTimeoutRes (.error .Timeout) = true := rfl
    rw [ht, Bool.true_or, if_pos rfl]
    rcases hfo : rs.find? isOtherRes with _ | x
    · rcases hat : rs.any isTimeoutRes with _ | _
      · rcases hff : rs.find? isFailRes with _ | y
        · rfl
        · obtain ⟨fy, hy⟩ := isFailRes_shape (List.find?_some hff)
          rw [hy]; rfl
      · rfl
    · obtain ⟨ex, hx⟩ := isOtherRes_shape (List.find?_some hfo)
      rw [hx]; rfl
  · -- r = Err(Other e)
    rw [specReduce,
      List.find?_cons_of_pos _ (by simp [isOtherRes]),
      reduceStep_other_left]
  · -- r = Ok(Pass)
    rw [specReduce, specReduce,
      List.find?_cons_of_neg _ (by simp [isOtherRes]),
      List.any_cons,
      List.find?_cons_of_neg _ (by simp [isFailRes]),
      reduceStep_pass_left]
    have ht : isTimeoutRes (.ok .Pass) = false := rfl
    rw [ht, Bool.false_or]
  · -- r = Ok(Fail f)
    rw [specReduce, specReduce,
      List.find?_cons_of_neg _ (by simp [isOtherRes]),
      List.any_cons,
      List.find?_cons_of_pos _ (by simp [isFailRes])]
    have ht : isTimeoutRes (.ok (.Fail f)) = false := rfl
    rw [ht, Bool.false_or]
    rcases hfo : rs.find? isOtherRes with _ | x
    · rcases hat : rs.any isTimeoutRes with _ | _
      · rcases hff : rs.find? isFailRes with _ | y
        · rfl
        · obtain ⟨fy, hy⟩ := isFailRes_shape (List.find?_some hff)
          rw [hy]; rfl
      · rfl
    · obtain ⟨ex, hx⟩ := isOtherRes_shape (List.find?_some hfo)
      rw [hx]; rfl

theorem reduceResults_go (rs : List TestResult) :
    ∀ acc, rs.foldl reduceStep acc = reduceStep acc (specReduce rs) := by
  induction rs with
  | nil =>
    intro acc
    rw [List.foldl_nil]
    have h : specReduce [] = .ok .Pass := rfl
    rw [h, reduceStep_pass_right]
  | cons r rs ih =>
    intro acc
    rw [List.foldl_cons, ih (reduceStep acc r), specReduce_cons, reduceStep_assoc]

/-! ### Bitwise-NOT toggling lemmas and frame lemmas -/

theorem bnot_bnot (nb v : Nat) : bnot nb (bnot nb v) = v := by
  rw [bnot, bnot, Nat.xor_cancel_right]

theorem bnot_allOnes (nb : Nat) : bnot nb (allOnes nb) = 0 := by
  rw [bnot, Nat.xor_self]

theorem bnot_iterate_parity (nb v : Nat) :
    ∀ k, (bnot nb)^[k] v = if k % 2 = 0 then v else bnot nb v := by
  intro k
  induction k with
  | zero => simp
  | succ k ih =>
    rw [Function.iterate_succ_apply', ih]
    by_cases h : k % 2 = 0
    · have h1 : ¬ ((k + 1) % 2 = 0) := by omega
      rw [if_pos h, if_neg h1]
    · have h1 : (k + 1) % 2 = 0 := by omega
      rw [if_neg h, if_pos h1, bnot_bnot]

/-- A fold of memory transforms that all leave index `j` unchanged leaves
index `j` unchanged. -/
theorem foldl_mem_frame (step : Mem → Nat → Mem) (j : Nat)
    (h : ∀ mm i, step mm i j = mm j) :
    ∀ (l : List Nat) (m : Mem), (l.foldl step m) j = m j := by
  intro l
  induction l with
  | nil => intro m; rfl
  | cons i rest ih =>
    intro m
    rw [List.foldl_cons, ih, h]

/-- The outer-run fold of `test_solid_bits` / `test_checkerboard` (with a
healthy-memory fault oracle): for tested indices, the final state is the one
written by the last run, independent of all earlier runs. -/
theorem toggleRunsFold_get (nb half : Nat) (startOf : Nat → Nat) (N : Nat)
    (hN : 0 < N) (m : Mem) (j : Nat) (hj : j < half + half) :
    ((List.range N).foldl (fun mm i => (toggleRunWrite nb half (startOf i) mm).2) m) j =
      (if j < half then (bnot nb)^[j + 1] (startOf (N - 1))
       else (bnot nb)^[j - half + 1] (startOf (N - 1))) := by
  obtain ⟨k, rfl⟩ : ∃ k, N = k + 1 := ⟨N - 1, by omega⟩
  rw [List.range_succ, List.foldl_append, List.foldl_cons, List.foldl_nil,
    toggleRunWrite_get, Nat.add_sub_cancel]
  by_cases h1 : j < half
  · rw [if_pos h1, if_pos h1]
  · rw [if_neg h1, if_neg h1, if_pos (by omega)]

/-- The outer-run fold of `test_block_seq` (with a healthy-memory fault
oracle): for tested indices, the final state is the value written by the
last run. -/
theorem pairRunsFold_get (valOf : Nat → Nat) (half : Nat) (N : Nat)
    (hN : 0 < N) (m : Mem) (j : Nat) (hj : j < half + half) :
    ((List.range N).foldl (fun mm i => pairWriteVal (fun _ => valOf i) half mm) m) j =
      valOf (N - 1) := by
  obtain ⟨k, rfl⟩ : ∃ k, N = k + 1 := ⟨N - 1, by omega⟩
  rw [List.range_succ, List.foldl_append, List.foldl_cons, List.foldl_nil,
    pairWriteVal_get, Nat.add_sub_cancel]
  by_cases h1 : j < half
  · rw [if_pos h1]
  · rw [if_neg h1, if_pos (by omega)]

/-! ### Claim theorems -/

/-- C9: the Xor write pass is an involution — running it a second time with
the same random stream restores every cell, since `(c ^ v) ^ v = c`; and from
any state with identical halves, the comparison after one pass observes
identical halves and passes. -/
theorem xor_pass_involution (nb : Nat) (rand : Nat → Nat) (half : Nat) (m : Mem) :
    twoRegionsWrite (xorVal nb) rand half (twoRegionsWrite (xorVal nb) rand half m) = m ∧
    ((∀ i < half, m i = m (half + i)) →
      compareRegions (twoRegionsWrite (xorVal nb) rand half m) 0 half half = .Pass) := by
  constructor
  · funext j
    rw [twoRegionsWrite_get, twoRegionsWrite_get]
    by_cases h1 : j < half
    · rw [if_pos h1, if_pos h1]
      simp only [xorVal]
      rw [Nat.xor_cancel_left]
    · rw [if_neg h1, if_neg h1]
      by_cases h2 : j < half + half
      · rw [if_pos h2, if_pos h2]
        simp only [xorVal]
        rw [Nat.xor_cancel_left]
      · rw [if_neg h2, if_neg h2]
  · intro hhalves
    apply compareRegions_pass
    intro i hi
    rw [Nat.zero_add, twoRegionsWrite_get, twoRegionsWrite_get]
    have h2 : ¬ (half + i < half) := by omega
    have h3 : half + i < half + half := by omega
    rw [if_pos hi, if_neg h2, if_pos h3]
    have he : half + i - half = i := by omega
    rw [he, hhalves i hi]

/-- C9 witness: on a concrete 2-word region two Xor passes restore the
region, and one pass keeps the halves identical. -/
theorem xor_pass_involution_witness :
    twoRegionsWrite (xorVal 1) (fun _ => 3) 1
        (twoRegionsWrite (xorVal 1) (fun _ => 3) 1 (fun _ => 5)) = (fun _ => 5) ∧
    compareRegions (twoRegionsWrite (xorVal 1) (fun _ => 3) 1 (fun _ => 5)) 0 1 1 = .Pass := by
  have h := xor_pass_involution 1 (fun _ => 3) 1 (fun _ => 5)
  exact ⟨h.1, h.2 (fun i hi => rfl)⟩

/-- C10: when the half-comparison returns `Fail(MismatchedValues ..)` the
reported pair is the lowest mismatching index `i`: `address1` is word `i` of
the lower half, `address2 = address1 + half` is the partner word, the two
values read there differ, and all pairs below `i` agree. -/
theorem compare_regions_first_mismatch (m : Mem) (b half : Nat) (fl : MemtestFailure)
    (h : compareRegions m b (b + half) half = .Fail fl) :
    ∃ i < half,
      fl = .MismatchedValues (b + i) (m (b + i)) (b + half + i) (m (b + half + i)) ∧
      b + half + i = (b + i) + half ∧
      m (b + i) ≠ m (b + half + i) ∧
      ∀ j < i, m (b + j) = m (b + half + j) := by
  obtain ⟨i, hi, h1, h2, h3⟩ := compareRegions_fail m b (b + half) half fl h
  exact ⟨i, hi, h1, by omega, h2, h3⟩

/-- C10 witness: on the region `w[j] = j` with `half = 1` the comparison
reports the pair at index 0. -/
theorem compare_regions_first_mismatch_witness :
    ∃ i < 1,
      (MemtestFailure.MismatchedValues 0 0 1 1 : MemtestFailure) =
        .MismatchedValues (0 + i) ((fun j => j : Mem) (0 + i)) (0 + 1 + i)
          ((fun j => j : Mem) (0 + 1 + i)) ∧
      0 + 1 + i = (0 + i) + 1 ∧
      (fun j => j : Mem) (0 + i) ≠ (fun j => j : Mem) (0 + 1 + i) ∧
      ∀ j < i, (fun j => j : Mem) (0 + j) = (fun j => j : Mem) (0 + 1 + j) :=
  compare_regions_first_mismatch (fun j => j) 0 1
    (.MismatchedValues 0 0 1 1) rfl

/-- C2 counterexample: `test_random_val` has no
`ensure_two_regions_mem_len` call, so on a length-1 region it returns
`Ok(Pass)` (with `half = 0` nothing is written or compared), not the
insufficient-region error the claim requires. -/
theorem random_val_len_one_not_rejected :
    (test_random_val 1 (fun _ => 3) 1 (fun _ => 0)).1 = .ok .Pass ∧
    (test_random_val 1 (fun _ => 3) 1 (fun _ => 0)).1 ≠
      .error (.Other twoRegionsErrMsg) := by
  decide

/-- C2 amended: on a length-1 region every two-region test except
`test_random_val` returns `Err(Other("Insufficient memory length for
two-regions memtest"))` without writing to the region; `test_random_val`
also performs no writes but returns `Ok(Pass)`. -/
theorem two_region_tests_reject_len_one (nb : Nat) (f : Nat → Nat → Nat)
    (rand : Nat → Nat) (fault : Nat → Mem → Mem) (m : Mem) :
    test_two_regions nb f rand 1 m = (.error (.Other twoRegionsErrMsg), m) ∧
    test_xor nb rand 1 m = (.error (.Other twoRegionsErrMsg), m) ∧
    test_sub nb rand 1 m = (.error (.Other twoRegionsErrMsg), m) ∧
    test_mul nb rand 1 m = (.error (.Other twoRegionsErrMsg), m) ∧
    test_div nb rand 1 m = (.error (.Other twoRegionsErrMsg), m) ∧
    test_or nb rand 1 m = (.error (.Other twoRegionsErrMsg), m) ∧
    test_and nb rand 1 m = (.error (.Other twoRegionsErrMsg), m) ∧
    test_seq_inc nb rand 1 m = (.error (.Other twoRegionsErrMsg), m) ∧
    test_solid_bits nb fault 1 m = (.error (.Other twoRegionsErrMsg), m) ∧
    test_checkerboard nb fault 1 m = (.error (.Other twoRegionsErrMsg), m) ∧
    test_block_seq nb fault 1 m = (.error (.Other twoRegionsErrMsg), m) ∧
    test_random_val nb rand 1 m = (.ok .Pass, m) :=
  ⟨rfl, rfl, rfl, rfl, rfl, rfl, rfl, rfl, rfl, rfl, rfl, rfl⟩

/-- C3 counterexample: the list literal of `all_tests_random_order` (which
the shuffle permutes) is not a permutation of the full 13-variant set:
`OwnAddressBasic` is commented out, leaving 12 kinds. -/
theorem all_tests_base_list_missing_kind :
    ¬ allTestsBaseList.Perm fullKindList ∧
    allTestsBaseList.count MemtestKind.OwnAddressBasic = 0 ∧
    allTestsBaseList.length = 12 := by
  decide

/-- C3 amended: every shuffle outcome of `all_tests_random_order` contains
each of the 12 listed kinds exactly once and `OwnAddressBasic` not at all. -/
theorem all_tests_random_order_covers_twelve (l : List MemtestKind)
    (h : isRandomOrderTestList l) :
    (∀ k : MemtestKind, k ≠ .OwnAddressBasic → l.count k = 1) ∧
    l.count MemtestKind.OwnAddressBasic = 0 ∧
    l.length = 12 := by
  have hlen := h.length_eq
  have hcnt := fun k => h.count_eq k
  refine ⟨?_, ?_, ?_⟩
  · intro k hk
    rw [hcnt k]
    revert hk
    revert k
    decide
  · rw [hcnt]; decide
  · rw [hlen]; decide

/-- C3 witness: the identity shuffle outcome. -/
theorem all_tests_random_order_covers_twelve_witness :
    (∀ k : MemtestKind, k ≠ .OwnAddressBasic → allTestsBaseList.count k = 1) ∧
    allTestsBaseList.count MemtestKind.OwnAddressBasic = 0 ∧
    allTestsBaseList.length = 12 :=
  all_tests_random_order_covers_twelve allTestsBaseList (List.Perm.refl _)

/-- Concrete fault oracle for the run-based tests: after run 0's write phase
corrupt word 1 (the first word of the upper half) to `7`, as the concurrent
corruption thread of `examples/test_failures.rs` can. -/
def c1Fault : Nat → Mem → Mem := fun i mm => if i = 0 then mset 1 7 mm else mm

/-- An all-zero 2-word region for the fault scenario. -/
def c1Mem : Mem := fun _ => 0

/-- C1: in `test_solid_bits`, `test_checkerboard` and `test_block_seq` the
per-run `compare_regions(..)?` propagates only the `Err` case of the result,
so an `Ok(Fail(MismatchedValues ..))` detected by a run's comparison is
DISCARDED and the test runs on to return `Ok(Pass)`.  Concretely, with a
corruption after run 0's writes, run 0's comparison observes a mismatched
pair, yet each of the three tests returns `Ok(Pass)`. -/
theorem run_comparison_fail_discarded :
    compareRegions (c1Fault 0 (toggleRunWrite 1 1 0 c1Mem).2) 0 1 1
        = .Fail (.MismatchedValues 0 255 1 7) ∧
    (test_solid_bits 1 c1Fault 2 c1Mem).1 = .ok .Pass ∧
    compareRegions (c1Fault 0 (toggleRunWrite 1 1 (checkerBoardVal 1) c1Mem).2) 0 1 1
        = .Fail (.MismatchedValues 0 170 1 7) ∧
    (test_checkerboard 1 c1Fault 2 c1Mem).1 = .ok .Pass ∧
    compareRegions (c1Fault 0 (pairWriteVal (fun _ => repByte 0 1) 1 c1Mem)) 0 1 1
        = .Fail (.MismatchedValues 0 0 1 7) ∧
    (test_block_seq 1 c1Fault 2 c1Mem).1 = .ok .Pass := by
  decide

/-- C7 counterexample: on healthy memory SolidBits completes with `Ok(Pass)`
but the final state is NOT all-ones — the inner toggle alternates per pair
index, so word 0 ends at 0. -/
theorem solid_bits_final_not_all_ones :
    (test_solid_bits 1 (fun _ mm => mm) 4 (fun _ => 0)).1 = .ok .Pass ∧
    (test_solid_bits 1 (fun _ mm => mm) 4 (fun _ => 0)).2 0 ≠ allOnes 1 := by
  decide

/-- C7 amended: on healthy memory SolidBits and Checkerboard complete with
`Ok(Pass)` and leave the tested words in a definite final state — the one
written by the last (odd-numbered) run, which alternates per pair index:
SolidBits leaves `0` at even pair indices and ALL-ONES at odd ones;
Checkerboard leaves the `0x55` pattern at even pair indices and the `0xAA`
pattern at odd ones. -/
theorem solid_bits_checkerboard_final_state (nb len : Nat) (m : Mem) (hlen : 2 ≤ len) :
    (test_solid_bits nb (fun _ mm => mm) len m).1 = .ok .Pass ∧
    (test_checkerboard nb (fun _ mm => mm) len m).1 = .ok .Pass ∧
    ∀ j < len / 2,
      ((test_solid_bits nb (fun _ mm => mm) len m).2 j
          = (if j % 2 = 0 then 0 else allOnes nb)) ∧
      ((test_solid_bits nb (fun _ mm => mm) len m).2 (len / 2 + j)
          = (if j % 2 = 0 then 0 else allOnes nb)) ∧
      ((test_checkerboard nb (fun _ mm => mm) len m).2 j
          = (if j % 2 = 0 then checkerBoardVal nb else bnot nb (checkerBoardVal nb))) ∧
      ((test_checkerboard nb (fun _ mm => mm) len m).2 (len / 2 + j)
          = (if j % 2 = 0 then checkerBoardVal nb else bnot nb (checkerBoardVal nb))) := by
  have hnl : ¬ (len < 2) := by omega
  refine ⟨?_, ?_, ?_⟩
  · rw [test_solid_bits, if_neg hnl]
  · rw [test_checkerboard, if_neg hnl]
  · intro j hj
    have hj2 : j < len / 2 + len / 2 := by omega
    have hpj : ¬ (len / 2 + j < len / 2) := by omega
    have hpj2 : len / 2 + j < len / 2 + len / 2 := by omega
    have he : len / 2 + j - len / 2 = j := by omega
    have hs : (if (64 - 1 : Nat) % 2 = 0 then 0 else allOnes nb) = allOnes nb := by
      norm_num
    have hs' : (if (64 - 1 : Nat) % 2 = 0 then checkerBoardVal nb
        else bnot nb (checkerBoardVal nb)) = bnot nb (checkerBoardVal nb) := by
      norm_num
    refine ⟨?_, ?_, ?_, ?_⟩
    · rw [test_solid_bits, if_neg hnl]
      show ((List.range 64).foldl
          (fun mm i => (toggleRunWrite nb (len / 2)
            (if i % 2 = 0 then 0 else allOnes nb) mm).2) m) j = _
      rw [toggleRunsFold_get nb (len / 2) _ 64 (by omega) m j hj2, if_pos hj, hs,
        bnot_iterate_parity]
      by_cases hp : j % 2 = 0
      · rw [if_neg (by omega), bnot_allOnes, if_pos hp]
      · rw [if_pos (by omega), if_neg hp]
    · rw [test_solid_bits, if_neg hnl]
      show ((List.range 64).foldl
          (fun mm i => (toggleRunWrite nb (len / 2)
            (if i % 2 = 0 then 0 else allOnes nb) mm).2) m) (len / 2 + j) = _
      rw [toggleRunsFold_get nb (len / 2) _ 64 (by omega) m _ hpj2, if_neg hpj, hs, he,
        bnot_iterate_parity]
      by_cases hp : j % 2 = 0
      · rw [if_neg (by omega), bnot_allOnes, if_pos hp]
      · rw [if_pos (by omega), if_neg hp]
    · rw [test_checkerboard, if_neg hnl]
      show ((List.range 64).foldl
          (fun mm i => (toggleRunWrite nb (len / 2)
            (if i % 2 = 0 then checkerBoardVal nb
             else bnot nb (checkerBoardVal nb)) mm).2) m) j = _
      rw [toggleRunsFold_get nb (len / 2) _ 64 (by omega) m j hj2, if_pos hj, hs',
        bnot_iterate_parity]
      by_cases hp : j % 2 = 0
      · rw [if_neg (by omega), bnot_bnot, if_pos hp]
      · rw [if_pos (by omega), if_neg hp]
    · rw [test_checkerboard, if_neg hnl]
      show ((List.range 64).foldl
          (fun mm i => (toggleRunWrite nb (len / 2)
            (if i % 2 = 0 then checkerBoardVal nb
             else bnot nb (checkerBoardVal nb)) mm).2) m) (len / 2 + j) = _
      rw [toggleRunsFold_get nb (len / 2) _ 64 (by omega) m _ hpj2, if_neg hpj, hs', he,
        bnot_iterate_parity]
      by_cases hp : j % 2 = 0
      · rw [if_neg (by omega), bnot_bnot, if_pos hp]
      · rw [if_pos (by omega), if_neg hp]

/-- C7 witness: the final-state theorem at a concrete 2-word region. -/
theorem solid_bits_checkerboard_final_state_witness :
    (test_solid_bits 1 (fun _ mm => mm) 2 (fun _ => 0)).1 = .ok .Pass ∧
    (test_checkerboard 1 (fun _ mm => mm) 2 (fun _ => 0)).1 = .ok .Pass ∧
    ∀ j < 2 / 2,
      ((test_solid_bits 1 (fun _ mm => mm) 2 (fun _ => 0)).2 j
          = (if j % 2 = 0 then 0 else allOnes 1)) ∧
      ((test_solid_bits 1 (fun _ mm => mm) 2 (fun _ => 0)).2 (2 / 2 + j)
          = (if j % 2 = 0 then 0 else allOnes 1)) ∧
      ((test_checkerboard 1 (fun _ mm => mm) 2 (fun _ => 0)).2 j
          = (if j % 2 = 0 then checkerBoardVal 1 else bnot 1 (checkerBoardVal 1))) ∧
      ((test_checkerboard 1 (fun _ mm => mm) 2 (fun _ => 0)).2 (2 / 2 + j)
          = (if j % 2 = 0 then checkerBoardVal 1 else bnot 1 (checkerBoardVal 1))) :=
  solid_bits_checkerboard_final_state 1 2 (fun _ => 0) (by decide)

/-- C8 counterexample: `test_xor` on a region of odd length 3 (initially all
`5`) DOES write the final word: `mem_reset` covers the whole region, so the
last word ends at ALL-ONES, not its original value. -/
theorem xor_test_writes_last_word_odd_len :
    (test_xor 1 (fun _ => 0) 3 (fun _ => 5)).2 2 = allOnes 1 ∧
    (fun _ => (5 : Nat) : Mem) 2 = 5 ∧
    allOnes 1 ≠ 5 := by
  decide

set_option maxRecDepth 8192 in
/-- C8 amended: on a region of odd length `len ≥ 3`, the pair loops and the
comparison of every two-region test ignore the final word, but the six
read-modify-write tests built on `test_two_regions` first reset the WHOLE
region to ALL-ONES, so their final word ends at ALL-ONES regardless of its
prior value; `test_random_val`, `test_seq_inc`, `test_solid_bits`,
`test_checkerboard` and `test_block_seq` never touch it. -/
theorem two_region_tests_last_word_odd_len (nb : Nat) (f : Nat → Nat → Nat)
    (rand : Nat → Nat) (len : Nat) (m : Mem)
    (hlen : 2 ≤ len) (hodd : len % 2 = 1) :
    (test_two_regions nb f rand len m).2 (len - 1) = allOnes nb ∧
    (test_random_val nb rand len m).2 (len - 1) = m (len - 1) ∧
    (test_seq_inc nb rand len m).2 (len - 1) = m (len - 1) ∧
    (test_solid_bits nb (fun _ mm => mm) len m).2 (len - 1) = m (len - 1) ∧
    (test_checkerboard nb (fun _ mm => mm) len m).2 (len - 1) = m (len - 1) ∧
    (test_block_seq nb (fun _ mm => mm) len m).2 (len - 1) = m (len - 1) := by
  have hnl : ¬ (len < 2) := by omega
  have h1 : ¬ (len - 1 < len / 2) := by omega
  have h2 : ¬ (len - 1 < len / 2 + len / 2) := by omega
  have h3 : len - 1 < len := by omega
  refine ⟨?_, ?_, ?_, ?_, ?_, ?_⟩
  · rw [test_two_regions, if_neg hnl]
    show twoRegionsWrite f rand (len / 2) (memReset nb len m) (len - 1) = allOnes nb
    rw [twoRegionsWrite_get, if_neg h1, if_neg h2, memReset_get, if_pos h3]
  · show pairWriteVal rand (len / 2) m (len - 1) = m (len - 1)
    rw [pairWriteVal_get, if_neg h1, if_neg h2]
  · rw [test_seq_inc, if_neg hnl]
    show pairWriteVal (fun i => (rand 0 + i) % 2 ^ (8 * nb)) (len / 2) m (len - 1)
        = m (len - 1)
    rw [pairWriteVal_get, if_neg h1, if_neg h2]
  · rw [test_solid_bits, if_neg hnl]
    show ((List.range 64).foldl
        (fun mm i => (toggleRunWrite nb (len / 2)
          (if i % 2 = 0 then 0 else allOnes nb) mm).2) m) (len - 1) = m (len - 1)
    refine foldl_mem_frame _ (len - 1) ?_ (List.range 64) m
    intro mm i
    rw [toggleRunWrite_get, if_neg h1, if_neg h2]
  · rw [test_checkerboard, if_neg hnl]
    show ((List.range 64).foldl
        (fun mm i => (toggleRunWrite nb (len / 2)
          (if i % 2 = 0 then checkerBoardVal nb
           else bnot nb (checkerBoardVal nb)) mm).2) m) (len - 1) = m (len - 1)
    refine foldl_mem_frame _ (len - 1) ?_ (List.range 64) m
    intro mm i
    rw [toggleRunWrite_get, if_neg h1, if_neg h2]
  · rw [test_block_seq, if_neg hnl]
    show ((List.range 256).foldl
        (fun mm i => pairWriteVal (fun _ => repByte i nb) (len / 2) mm) m)
        (len - 1) = m (len - 1)
    refine foldl_mem_frame _ (len - 1) ?_ (List.range 256) m
    intro mm i
    rw [pairWriteVal_get, if_neg h1, if_neg h2]

/-- C8 witness: the last-word theorem at a concrete 3-word region. -/
theorem two_region_tests_last_word_odd_len_witness :
    (test_two_regions 1 (fun c _ => c) (fun _ => 0) 3 (fun _ => 5)).2 (3 - 1) = allOnes 1 ∧
    (test_random_val 1 (fun _ => 0) 3 (fun _ => 5)).2 (3 - 1) = 5 ∧
    (test_seq_inc 1 (fun _ => 0) 3 (fun _ => 5)).2 (3 - 1) = 5 ∧
    (test_solid_bits 1 (fun _ mm => mm) 3 (fun _ => 5)).2 (3 - 1) = 5 ∧
    (test_checkerboard 1 (fun _ mm => mm) 3 (fun _ => 5)).2 (3 - 1) = 5 ∧
    (test_block_seq 1 (fun _ mm => mm) 3 (fun _ => 5)).2 (3 - 1) = 5 :=
  two_region_tests_last_word_odd_len 1 (fun c _ => c) (fun _ => 0) 3 (fun _ => 5)
    (by decide) (by decide)

/-- C4: the multithreaded reduction returns `Err(Other)` if any worker
produced one (with the first such worker's payload), otherwise `Err(Timeout)`
if any worker timed out, otherwise `Ok(Fail)` if any worker failed (with the
first such worker's payload), otherwise `Ok(Pass)` — i.e. the fold agrees
with the priority/first-wins reduction stated by the spec. -/
theorem reduce_results_priority (rs : List TestResult) :
    reduceResults rs = specReduce rs := by
  rw [reduceResults, reduceResults_go rs (.ok .Pass), reduceStep_pass_left]

/-- C5: the suite driver never stops on `Err(Timeout)` or `Err(Other)` — a
report is appended and the next test is dispatched; without early
termination every configured test is reported; with early termination the
report list is exactly the prefix up to and including the first `Ok(Fail)`
result. -/
theorem run_tests_dispatch_policy :
    (∀ l : List (MemtestKind × TestResult),
        runTests false l = l.map (fun p => MemtestReport.mk p.1 p.2)) ∧
    (∀ l : List (MemtestKind × TestResult),
        runTests true l =
          (l.take (l.findIdx (fun p => isFailRes p.2) + 1)).map
            (fun p => MemtestReport.mk p.1 p.2)) ∧
    (∀ (ae : Bool) (k : MemtestKind) (r : TestResult)
        (rest : List (MemtestKind × TestResult)), isFailRes r = false →
        runTests ae ((k, r) :: rest) = MemtestReport.mk k r :: runTests ae rest) := by
  refine ⟨?_, ?_, ?_⟩
  · intro l
    induction l with
    | nil => rfl
    | cons p rest ih =>
      obtain ⟨k, r⟩ := p
      rw [runTests, Bool.and_false, if_neg (by simp), ih, List.map_cons]
  · intro l
    induction l with
    | nil => rfl
    | cons p rest ih =>
      obtain ⟨k, r⟩ := p
      rw [runTests, Bool.and_true, List.findIdx_cons]
      by_cases hf : isFailRes r
      · rw [if_pos hf, hf]
        show _ = ((⟨k, r⟩ :: rest).take 1).map (fun p => MemtestReport.mk p.1 p.2)
        rw [List.take_succ_cons, List.take_zero, List.map_cons, List.map_nil]
      · rw [if_neg hf]
        have hf' : isFailRes r = false := by
          revert hf; rcases isFailRes r with _ | _ <;> simp
        rw [hf', ih]
        show _ = ((⟨k, r⟩ :: rest).take (rest.findIdx (fun p => isFailRes p.2) + 1 + 1)).map
          (fun p => MemtestReport.mk p.1 p.2)
        rw [List.take_succ_cons, List.map_cons]
  · intro ae k r rest hr
    rw [runTests, hr, Bool.false_and, if_neg (by simp)]

/-- C5 witness: a `Timeout` result does not stop the suite (the report is
appended and the — here empty — remainder is still processed). -/
theorem run_tests_dispatch_policy_witness :
    runTests true [(MemtestKind.Xor, (Except.error MemtestError.Timeout : TestResult))] =
      [MemtestReport.mk MemtestKind.Xor (Except.error MemtestError.Timeout)] :=
  (run_tests_dispatch_policy.2.2 true MemtestKind.Xor
    (Except.error MemtestError.Timeout) [] rfl).trans rfl

/-- C6 counterexample: a slow-path `check()` that observes the deadline
passed returns `Err(Timeout)` WITHOUT increasing the checkpoint, refuting
"a slow-path call increases it by at least 1".  After `init(8)` (checkpoint
1) and one fast-path call, the next call is slow-path and, timed out, leaves
the checkpoint at 1. -/
theorem slow_path_timeout_keeps_checkpoint :
    ¬ (((TimeoutChecker.init 8 TimeoutChecker.new).check false 0).1.completed_iter
        < ((TimeoutChecker.init 8 TimeoutChecker.new).check false 0).1.checkpoint) ∧
    ((((TimeoutChecker.init 8 TimeoutChecker.new).check false 0).1).check true 5).1.checkpoint
      = (((TimeoutChecker.init 8 TimeoutChecker.new).check false 0).1).checkpoint := by
  decide

/-- Each `check` call increases `completed_iter` by at most 1. -/
theorem check_completed_le (t : Bool) (est : Nat) (s : TimeoutChecker) :
    ((s.check t est).1).completed_iter ≤ s.completed_iter + 1 := by
  rw [TimeoutChecker.check]
  split_ifs <;> simp

/-- Over a call sequence, `completed_iter` grows by at most the number of
calls. -/
theorem checkSeq_completed_le (os : List (Bool × Nat)) :
    ∀ s : TimeoutChecker,
      (TimeoutChecker.checkSeq s os).completed_iter ≤ s.completed_iter + os.length := by
  induction os with
  | nil =>
    intro s
    rw [TimeoutChecker.checkSeq]
    omega
  | cons o os ih =>
    intro s
    rw [TimeoutChecker.checkSeq]
    have h1 := ih (TimeoutChecker.check o.1 o.2 s).1
    have h2 := check_completed_le o.1 o.2 s
    have h3 : (o :: os).length = os.length + 1 := by rw [List.length_cons]
    omega

/-- C6 amended: the checkpoint is monotonically non-decreasing across
`check()` calls; a fast-path call leaves it unchanged (only incrementing
`completed_iter`); a slow-path call that does not time out increases it by
at least 1, while a slow-path call that observes the deadline returns
`Err(Timeout)` leaving the whole state unchanged; and starting from
`new` + `init(expected)`, at most `expected` calls leave
`completed_iter ≤ expected`. -/
theorem timeout_checker_checkpoint_policy :
    (∀ (t : Bool) (est : Nat) (s : TimeoutChecker),
        s.checkpoint ≤ ((s.check t est).1).checkpoint) ∧
    (∀ (t : Bool) (est : Nat) (s : TimeoutChecker),
        s.completed_iter < s.checkpoint →
        s.check t est = ({ s with completed_iter := s.completed_iter + 1 }, none)) ∧
    (∀ (est : Nat) (s : TimeoutChecker),
        ¬ s.completed_iter < s.checkpoint →
        s.checkpoint + 1 ≤ ((s.check false est).1).checkpoint) ∧
    (∀ (est : Nat) (s : TimeoutChecker),
        ¬ s.completed_iter < s.checkpoint →
        s.check true est = (s, some MemtestError.Timeout)) ∧
    (∀ (expected : Nat) (os : List (Bool × Nat)),
        os.length ≤ expected →
        (TimeoutChecker.checkSeq (TimeoutChecker.init expected TimeoutChecker.new)
          os).completed_iter ≤ expected) := by
  refine ⟨?_, ?_, ?_, ?_, ?_⟩
  · intro t est s
    rw [TimeoutChecker.check]
    split_ifs <;> simp
  · intro t est s h
    rw [TimeoutChecker.check, if_pos h]
  · intro est s h
    rw [TimeoutChecker.check, if_neg h, if_neg (by simp)]
    simp
  · intro est s h
    rw [TimeoutChecker.check, if_neg h, if_pos rfl]
  · intro expected os hlen
    have h := checkSeq_completed_le os (TimeoutChecker.init expected TimeoutChecker.new)
    have h0 : (TimeoutChecker.init expected TimeoutChecker.new).completed_iter = 0 := rfl
    omega

/-- C6 witness: the policy theorem at concrete states. -/
theorem timeout_checker_checkpoint_policy_witness :
    TimeoutChecker.check false 3 (TimeoutChecker.init 8 TimeoutChecker.new) =
      ({ expected_iter := 8, completed_iter := 1, checkpoint := 1 }, none) ∧
    (TimeoutChecker.checkSeq (TimeoutChecker.init 2 TimeoutChecker.new)
      [(false, 1), (false, 1)]).completed_iter ≤ 2 :=
  ⟨timeout_checker_checkpoint_policy.2.1 false 3 (TimeoutChecker.init 8 TimeoutChecker.new)
      (by decide),
   timeout_checker_checkpoint_policy.2.2.2.2 2 [(false, 1), (false, 1)] (by decide)⟩

example : (test_random_val 1 (fun _ => 3) 1 (fun _ => 0)).1 = .ok .Pass := rfl

example : (test_xor 1 (fun _ => 3) 1 (fun _ => 9)).1 = .error (.Other twoRegionsErrMsg) := rfl
